import Mathlib

/-!
Verification development for the WhatsApp/Kayako bridge (src/index.js and
src/unnamed/part_000).  JavaScript strings are modelled as Lean `String`
(operations implemented over `List Char`), JS regular-expression operations
are implemented as explicit scanners that follow the engine's
leftmost-match/greedy semantics for the concrete patterns appearing in the
source, and JS truthiness of optional string fields is modelled explicitly.
-/

set_option maxRecDepth 8000

namespace WABridge

/-! ## Character classes (ASCII fragment of the JS classes used by the source) -/

/-- JS `\d` on ASCII input: the characters 0-9. -/
def isDig (c : Char) : Bool := 48 ≤ c.toNat && c.toNat ≤ 57

/-- JS `\s` (ASCII fragment): space, tab, newline, carriage return, vertical
tab, form feed. -/
def isJsWs (c : Char) : Bool :=
  c = ' ' || c = '\t' || c = '\n' || c = '\r' || c = '\x0b' || c = '\x0c'

/-- JS `String.prototype.toLowerCase` on ASCII letters. -/
def jsToLower (c : Char) : Char :=
  if 65 ≤ c.toNat && c.toNat ≤ 90 then Char.ofNat (c.toNat + 32) else c

def isAsciiLetter (c : Char) : Bool :=
  (65 ≤ c.toNat && c.toNat ≤ 90) || (97 ≤ c.toNat && c.toNat ≤ 122)

def lowerL (l : List Char) : List Char := l.map jsToLower

/-- Case-insensitive prefix test (both sides lowered), as the `i` flag does. -/
def ciIsPre (pat l : List Char) : Bool := lowerL (l.take pat.length) = lowerL pat

/-! ## JS string primitives -/

/-- JS `String.prototype.split` with a one-character separator. -/
def splitCh (sep : Char) : List Char → List (List Char)
  | [] => [[]]
  | c :: rest =>
    let r := splitCh sep rest
    if c = sep then [] :: r
    else
      match r with
      | h :: t => (c :: h) :: t
      | [] => [[c]]

/-- `Array.prototype.join` with a newline, inverse of `splitCh` on lines. -/
def joinNL : List (List Char) → List Char
  | [] => []
  | [x] => x
  | x :: xs => x ++ '\n' :: joinNL xs

/-- JS `String.prototype.trim` (ASCII whitespace fragment). -/
def jsTrimL (l : List Char) : List Char :=
  ((l.dropWhile isJsWs).reverse.dropWhile isJsWs).reverse

def jsTrimS (s : String) : String := ⟨jsTrimL s.data⟩

/-- Strip one literal prefix if present, as `replace(/^lit/, Empty)` does. -/
def dropLit (pat l : List Char) : Option (List Char) :=
  if l.take pat.length = pat then some (l.drop pat.length) else none

def stripOnceLit (pat : String) (l : List Char) : List Char :=
  match dropLit pat.data l with
  | some r => r
  | none => l

/-- All digit characters of a string, in order (JS `replace(/\D/g, Empty)`). -/
def digitsL (l : List Char) : List Char := l.filter isDig

/-- Unanchored case-insensitive substring test (JS `/pat/i.test(s)`). -/
def containsCIAux (pat : List Char) : List Char → Bool
  | [] => ciIsPre pat []
  | l@(_ :: rest) => ciIsPre pat l || containsCIAux pat rest

def containsCI (s : String) (pat : String) : Bool := containsCIAux pat.data s.data

/-- Index of the first position whose suffix satisfies `pred` (any position). -/
def searchSubAux (pred : List Char → Bool) : List Char → Option Nat
  | [] => none
  | l@(_ :: rest) =>
    if pred l then some 0 else (searchSubAux pred rest).map (· + 1)

/-- Index of the first line-start position whose suffix satisfies `pred`
(the JS `m` flag anchors `^` at offset 0 and after each newline). -/
def searchLineAux (pred : List Char → Bool) : List Char → Bool → Option Nat
  | [], _ => none
  | l@(c :: rest), atStart =>
    if atStart && pred l then some 0
    else (searchLineAux pred rest (c = '\n')).map (· + 1)

def searchLine (pred : List Char → Bool) (l : List Char) : Option Nat :=
  searchLineAux pred l true

/-! ## Identity codec (src/unnamed/part_000 lines 43-55, src/index.js 336-344) -/

/-- `MAIL_FROM_DOMAIN` default used throughout the source. -/
def FROM_DOMAIN : String := "whatsapp.stickershop.co.uk"

/-- `phone.replace(/^whatsapp:/, Empty).replace(/^\+/, Empty)`. -/
def strippedNum (phone : String) : List Char :=
  let n1 := stripOnceLit ("whatsapp:") phone.data
  match n1 with
  | '+' :: r => r
  | l => l

/-- src/unnamed/part_000 lines 43-47 and src/index.js lines 336-339: the
stripped number followed by `@` and the configured domain. -/
def buildFromAddress (phone : String) : String :=
  ⟨strippedNum phone ++ '@' :: FROM_DOMAIN.data⟩

/-- Names the failure mode of the spec codec. -/
inductive SpecError where
  | invalidAddress
deriving DecidableEq

/-- Modelled from the spec (section 4.1, Identity Codec), for comparison
with `buildFromAddress`: `toPseudoIdentity` strips any channel prefix and
leading plus, concatenates the remaining digits with the configured domain,
and fails with `InvalidAddress` if fewer than 6 digits remain.  No function
of the source performs this validation; this definition follows the
specification's words. -/
def toPseudoIdentitySpec (chatAddress : String) : Except SpecError String :=
  let digs := digitsL (strippedNum chatAddress)
  if digs.length < 6 then .error .invalidAddress
  else .ok ⟨digs ++ '@' :: FROM_DOMAIN.data⟩

/-- The part of `emailToWhatsappAddress` after trimming and lower-casing:
split at `@`; null unless the local part is nonempty and the domain
matches; recover `whatsapp:+<digits of local>`; null when no digit
remains. -/
def decodePostTrim (s : List Char) : Option String :=
  match splitCh '@' s with
  | lcl :: dom :: _ =>
    if lcl = [] || ¬ (dom = lowerL FROM_DOMAIN.data) then none
    else
      let digs := digitsL lcl
      if digs = [] then none else some ⟨("whatsapp:+").data ++ digs⟩
  | _ => none

/-- src/unnamed/part_000 lines 49-55: trim and lower-case the address, then
recognise `<local>@<domain>`. -/
def emailToWhatsappAddress (email : String) : Option String :=
  decodePostTrim (lowerL (jsTrimL email.data))

/-- src/index.js lines 341-344: canonical thread-map key
`whatsapp:+<digits>`, null when the input holds no digit. -/
def waKey (input : String) : Option String :=
  let digs := digitsL input.data
  if digs = [] then none else some ⟨("whatsapp:+").data ++ digs⟩

/-! ## firstAddress (src/index.js lines 423-426): the email-shaped regex
`/<?([A-Z0-9._%+-]+@[A-Z0-9.-]+\.[A-Z]{2,})>?/i`, leftmost match, captured
group lower-cased, empty string when nothing matches. -/

def isLocalCh (c : Char) : Bool :=
  isAsciiLetter c || isDig c || c = '.' || c = '_' || c = '%' || c = '+' || c = '-'

def isDomCh (c : Char) : Bool := isAsciiLetter c || isDig c || c = '.' || c = '-'

/-- Backtracking of `[A-Z0-9.-]+\.[A-Z]{2,}` inside the maximal domain-character
run: the longest first part followed by a dot and at least two letters. -/
def tryDomSplit (dom : List Char) : Option (List Char) :=
  (List.range dom.length).reverse.findSome? fun a =>
    if 1 ≤ a ∧ (dom.drop a).take 1 = ['.'] then
      let tld := (dom.drop (a + 1)).takeWhile isAsciiLetter
      if 2 ≤ tld.length then some (dom.take a ++ '.' :: tld) else none
    else none

/-- One attempt of the email regex at a fixed position. -/
def matchEmailAt (l : List Char) : Option (List Char) :=
  let l1 := match l with
            | '<' :: r => r
            | x => x
  let loc := l1.takeWhile isLocalCh
  if loc = [] then none
  else
    match l1.drop loc.length with
    | '@' :: afterAt =>
      let dom := afterAt.takeWhile isDomCh
      (tryDomSplit dom).map (fun d => loc ++ '@' :: d)
    | _ => none

def firstAddressAux : List Char → Option (List Char)
  | [] => none
  | l@(_ :: rest) =>
    match matchEmailAt l with
    | some g => some g
    | none => firstAddressAux rest

def firstAddress (s : String) : String :=
  match firstAddressAux s.data with
  | some g => ⟨lowerL g⟩
  | none => ""

/-! ## toWhatsAppNumber (src/index.js lines 428-441) -/

/-- Outcome of `JSON.parse(envelope || String.ofBraces)` followed by the
`env.to` normalisation: either the recipient array (parse succeeded) or a
parse failure (malformed JSON), which is the only path that falls back to
the `to` header. -/
inductive EnvelopeData where
  | parsed (toRcpt : List String)
  | malformed
deriving DecidableEq

/-- JS `String.prototype.toLowerCase` then `endsWith`. -/
def endsWithCI (s : String) (suffix : List Char) : Bool :=
  let low := lowerL s.data
  low.drop (low.length - suffix.length) = suffix ∧ suffix.length ≤ low.length

/-- Digits of the part before the first `@` (`s.split(At)[0]` then `\D` strip). -/
def digitsOfLocal (s : String) : List Char :=
  digitsL ((splitCh '@' s.data).headD [])

/-- src/index.js lines 428-441: prefer the SendGrid envelope recipient that
ends in the configured domain (else the first recipient); only a JSON parse
failure falls back to scanning the `to` header with `firstAddress`. -/
def toWhatsAppNumber (toField : String) (env : EnvelopeData) : Option String :=
  match env with
  | .parsed arr =>
    let chosen :=
      match arr.find? (fun a => endsWithCI a ('@' :: FROM_DOMAIN.data)) with
      | some a => a
      | none => arr.headD ""
    let digs := digitsOfLocal chosen
    if digs = [] then none else some ⟨("whatsapp:+").data ++ digs⟩
  | .malformed =>
    let digs := digitsOfLocal (firstAddress toField)
    if digs = [] then none else some ⟨("whatsapp:+").data ++ digs⟩

/-! ## Content sanitizer: stripQuotedAndSignature (src/index.js lines 588-633)

Each regex of the pipeline is realised as a scanner with the engine's
semantics for that concrete pattern (leftmost match; greedy pieces whose
following literal cannot occur inside them reduce to maximal munch). -/

/-- `replace(/\r\n/g, LF)`. -/
def normCRLF : List Char → List Char
  | [] => []
  | '\r' :: '\n' :: rest => '\n' :: normCRLF rest
  | c :: rest => c :: normCRLF rest

/-- A line matching `/^\s*>/`. -/
def lineIsQuote (ln : List Char) : Bool := (ln.dropWhile isJsWs).take 1 = ['>']

/-- Drop quoted-history lines: `split(LF).filter(l not matching).join(LF)`. -/
def stepQuotes (l : List Char) : List Char :=
  joinNL ((splitCh '\n' l).filter (fun ln => ¬ lineIsQuote ln))

/-- Whitespace (possibly spanning line ends) up to the next end of line, the
`\s*$` tail of the wrote pattern. -/
def wsToEol : List Char → Bool
  | [] => true
  | c :: r => if c = '\n' then true else isJsWs c && wsToEol r

/-- The `.+ wrote:\s*$` tail of `/^\s*On .+ wrote:\s*$/im`: at least one
non-newline character, then the literal (case-insensitive), then whitespace
to the end of the line. -/
def wroteScan : List Char → Nat → Bool
  | [], _ => false
  | l@(c :: rest), k =>
    if c = '\n' then false
    else (1 ≤ k && ciIsPre (" wrote:").data l && wsToEol (l.drop 7))
         || wroteScan rest (k + 1)

def predWrote (l : List Char) : Bool :=
  let t := l.dropWhile isJsWs
  ciIsPre ("On ").data t && wroteScan (t.drop 3) 0

def stepWrote (l : List Char) : List Char :=
  match searchLine predWrote l with
  | some i => l.take i
  | none => l

/-- The suffix starts with a whitespace character (one `\s`). -/
def headIsWs : List Char → Bool
  | c :: _ => isJsWs c
  | [] => false

/-- One alternative of `/^\s*(From|Sent|To|Subject):\s/im`: the keyword with
its colon, then one whitespace character. -/
def hdrKw (kw : String) (t : List Char) : Bool :=
  ciIsPre kw.data t && headIsWs (t.drop kw.length)

def predHdr (l : List Char) : Bool :=
  let t := l.dropWhile isJsWs
  hdrKw ("From:") t || hdrKw ("Sent:") t || hdrKw ("To:") t || hdrKw ("Subject:") t

def stepHdr (l : List Char) : List Char :=
  match searchLine predHdr l with
  | some i => l.take i
  | none => l

def isSepCh (c : Char) : Bool := c = '-' || c = '=' || c = '–' || c = '—' || c = '_'

def isSpTab (c : Char) : Bool := c = ' ' || c = '\t'

/-- A line matching `/^[\t ]*(?:[-=–—_]){10,}[\t ]*$/m` in full. -/
def predSep (l : List Char) : Bool :=
  let r1 := l.dropWhile isSpTab
  let seps := r1.takeWhile isSepCh
  let r2 := (r1.drop seps.length).dropWhile isSpTab
  10 ≤ seps.length && (r2 = [] || r2.take 1 = ['\n'])

def stepSep (l : List Char) : List Char :=
  match searchLine predSep l with
  | some i => l.take i
  | none => l

/-- One alternative of `/^\s*(?:t\.|m\.|e\.|w\.)\s+/im`. -/
def fieldKw (kw : String) (t : List Char) : Bool :=
  ciIsPre kw.data t && headIsWs (t.drop kw.length)

def predFields (l : List Char) : Bool :=
  let t := l.dropWhile isJsWs
  fieldKw ("t.") t || fieldKw ("m.") t || fieldKw ("e.") t || fieldKw ("w.") t

def stepFields (l : List Char) : List Char :=
  match searchLine predFields l with
  | some i => l.take i
  | none => l

/-- The unanchored legal-boilerplate alternation of src/index.js lines
612-614, case-insensitive, tested at one position. -/
def legalAt (l : List Char) : Bool :=
  ciIsPre ("registered address").data l
  || (ciIsPre ("company").data l &&
       (let r := (l.drop 7).dropWhile isJsWs
        ciIsPre ("no").data r || ciIsPre ("number").data r))
  || ciIsPre ("confidential notice").data l
  || ciIsPre ("confidentiality notice").data l
  || ciIsPre ("this message is confidential").data l
  || ciIsPre ("this message may be confidential").data l
  || ciIsPre ("please consider the environment").data l

def stepLegal (l : List Char) : List Char :=
  match searchSubAux legalAt l with
  | some i => l.take i
  | none => l

/-- Position right after the first `]`, when one exists. -/
def pastRBracket (l : List Char) : Option (List Char) :=
  if l.any (· = ']') then some ((l.dropWhile (fun c => ¬ c = ']')).drop 1) else none

theorem pastRBracket_length {l after : List Char} (h : pastRBracket l = some after) :
    after.length ≤ l.length := by
  unfold pastRBracket at h
  split at h
  · cases h
    have h1 : (l.dropWhile (fun c => ¬ c = ']')).length ≤ l.length :=
      (List.dropWhile_sublist _).length_le
    have h2 := List.length_drop 1 (l.dropWhile (fun c => ¬ c = ']'))
    omega
  · cases h

/-- Scanner for `replace(/\[img[\s\S]*?\]/gi, Space)`: fuel-indexed so that
the kernel can evaluate it; every recursive call consumes at least one list
element, so any fuel of at least the list length computes the replacement. -/
def stepImgGo : Nat → List Char → List Char
  | 0, l => l
  | _ + 1, [] => []
  | fuel + 1, c :: rest =>
    if c = '[' ∧ ciIsPre ("img").data rest then
      match pastRBracket (rest.drop 3) with
      | some after => ' ' :: stepImgGo fuel after
      | none => c :: stepImgGo fuel rest
    else c :: stepImgGo fuel rest

/-- `replace(/\[img[\s\S]*?\]/gi, Space)`: each `[img` with a later `]` is
replaced, lazily up to the first `]`. -/
def stepImg (l : List Char) : List Char := stepImgGo l.length l

/-- Company-specific kill phrases (src/index.js lines 621-628): the first
regex that matches cuts the text and stops the loop. -/
def stepKill (l : List Char) : List Char :=
  match searchSubAux (fun t => ciIsPre ("stickershop is a trading division").data t) l with
  | some i => l.take i
  | none =>
    match searchSubAux (fun t => ciIsPre ("theprintshop ltd").data t) l with
    | some i => l.take i
    | none => l

/-- `replace(/[ \t]+\n/g, LF)`: spaces and tabs immediately before a newline
are removed. -/
def stepWsEol (l : List Char) : List Char :=
  l.foldr (fun c acc => if isSpTab c ∧ acc.take 1 = ['\n'] then acc else c :: acc) []

/-- Scanner for `replace(/\n{3,}/g, LFLF)`, fuel-indexed for kernel
evaluation; every recursive call consumes at least one list element. -/
def stepNlGo : Nat → List Char → List Char
  | 0, l => l
  | _ + 1, [] => []
  | fuel + 1, '\n' :: '\n' :: rest =>
    '\n' :: '\n' :: stepNlGo fuel (rest.dropWhile (· = '\n'))
  | fuel + 1, c :: rest => c :: stepNlGo fuel rest

/-- `replace(/\n{3,}/g, LFLF)`: runs of three or more newlines collapse to two. -/
def stepNl (l : List Char) : List Char := stepNlGo l.length l

/-- Length cap: `if (s.length > 1600) s = s.slice(0, 1590) + Ellipsis`. -/
def stepCap (l : List Char) : List Char :=
  if 1600 < l.length then l.take 1590 ++ ['…'] else l

/-- src/index.js lines 588-633, the whole pipeline in source order. -/
def stripQSL (l : List Char) : List Char :=
  stepCap (jsTrimL (stepNl (stepWsEol (stepKill (stepImg (stepLegal (stepFields
    (stepSep (stepHdr (stepWrote (stepQuotes (normCRLF l))))))))))))

/-- `stripQuotedAndSignature` with its early return for a falsy argument. -/
def stripQuotedAndSignature (txt : String) : String :=
  if txt = "" then "" else ⟨stripQSL txt.data⟩

/-- The call site src/index.js lines 694-695:
`body = stripQuotedAndSignature(body); if (!body) body = '(no text)';`. -/
def sanitizeAtCallSite (txt : String) : String :=
  let b := stripQuotedAndSignature txt
  if b = "" then "(no text)" else b

/-! ## Thread Store (src/index.js lines 374-397) -/

/-- One record of the persistent map
`{ caseId?, kayakoMsgId?, lastOutboundSgId?, updatedAt }`. -/
structure ThreadMeta where
  caseId : Option String
  kayakoMsgId : Option String
  lastOutboundSgId : Option String
  updatedAt : Option Nat
deriving DecidableEq

def emptyMeta : ThreadMeta := ⟨none, none, none, none⟩

/-- The JSON object persisted at `MAP_PATH`, keyed by chat address. -/
def ThreadMap := List (String × ThreadMeta)

instance : DecidableEq ThreadMap := by
  unfold ThreadMap
  infer_instance

/-- JS property read `map[k]`. -/
def mapGet (m : ThreadMap) (k : String) : Option ThreadMeta :=
  match m with
  | [] => none
  | (k2, v) :: rest => if k2 = k then some v else mapGet rest k

/-- JS property write `map[k] = v` (object keys are unique). -/
def mapDel (m : ThreadMap) (k : String) : ThreadMap :=
  match m with
  | [] => []
  | (k2, v) :: rest => if k2 = k then mapDel rest k else (k2, v) :: mapDel rest k

def mapSet (m : ThreadMap) (k : String) (v : ThreadMeta) : ThreadMap :=
  (k, v) :: mapDel m k

/-- Truthiness of a JS string-or-undefined field such as `meta.caseId`. -/
def jsTruthy : Option String → Bool
  | none => false
  | some s => ¬ (s = "")

/-- Outcome of one filesystem call inside `saveThreadMap`. -/
inductive FsOutcome where
  | success
  | failure (msg : String)
deriving DecidableEq

def liftFs : FsOutcome → Except String Unit
  | .success => .ok ()
  | .failure m => .error m

instance {ε α : Type} [DecidableEq ε] [DecidableEq α] : DecidableEq (Except ε α) :=
  fun a b =>
    match a, b with
    | .ok x, .ok y =>
      if h : x = y then .isTrue (by rw [h]) else .isFalse (fun he => by cases he; exact h rfl)
    | .error x, .error y =>
      if h : x = y then .isTrue (by rw [h]) else .isFalse (fun he => by cases he; exact h rfl)
    | .ok _, .error _ => .isFalse (fun he => by cases he)
    | .error _, .ok _ => .isFalse (fun he => by cases he)

/-- The body of the `try` block of `saveThreadMap` (src/index.js lines
380-382): `mkdirSync` then `writeFileSync`, each of which can throw. -/
def saveAttempt (mkdirRes writeRes : FsOutcome) : Except String Unit := do
  liftFs mkdirRes
  liftFs writeRes

/-- src/index.js lines 379-384: the whole `try { ... } catch (e) {
console.warn(...) }` — a throw is caught, logged and discarded, so the
function returns normally in every case. -/
def saveThreadMap (mkdirRes writeRes : FsOutcome) : Except String Unit :=
  match saveAttempt mkdirRes writeRes with
  | .ok _ => .ok ()
  | .error _ => .ok ()

/-- src/index.js lines 387-397 `migrateKeyIfNeeded`: move a legacy
digits-only record to the canonical `whatsapp:+<digits>` key. -/
def migrateKeyIfNeeded (m : ThreadMap) (numberLike : String) :
    Option String × ThreadMap :=
  match waKey numberLike with
  | none => (none, m)
  | some key =>
    let digits : String := ⟨digitsL numberLike.data⟩
    if ¬ (digits = "") ∧ (mapGet m digits).isSome ∧ (mapGet m key).isNone then
      (some key, mapDel (mapSet m key ((mapGet m digits).getD emptyMeta)) digits)
    else (some key, m)

/-- The record the handler works with after key migration:
`const meta = key ? (threadMap[key] || {}) : {}`. -/
def metaAfterMigration (m : ThreadMap) (numberLike : String) : ThreadMeta :=
  let pr := migrateKeyIfNeeded m numberLike
  match pr.1 with
  | some k => (mapGet pr.2 k).getD emptyMeta
  | none => emptyMeta

/-- Result of the case-resolution step of `/incoming-whatsapp`. -/
structure ResolveOut where
  caseId : Option String
  performedLookup : Bool
  map : ThreadMap
deriving DecidableEq

/-- src/index.js lines 459-473: load the thread map, migrate the key, and
only when the record has no (truthy) `caseId` call
`findLatestOpenCaseIdByIdentity`; a found id is stored and saved.  The
helpdesk's reply to that network call is the `lookupRes` argument. -/
def resolveCaseForInbound (m0 : ThreadMap) (sender : String)
    (lookupRes : Option String) (now : Nat) : ResolveOut :=
  let pr := migrateKeyIfNeeded m0 sender
  let meta := metaAfterMigration m0 sender
  if ¬ jsTruthy meta.caseId then
    match lookupRes with
    | some c =>
      let meta2 := { meta with caseId := some c, updatedAt := some now }
      ⟨some c, true, mapSet pr.2 (pr.1.getD ("null")) meta2⟩
    | none => ⟨meta.caseId, true, pr.2⟩
  else ⟨meta.caseId, false, pr.2⟩

/-! ## Temporary media store (src/index.js lines 560-585) -/

/-- One entry of `memStore`: `{buf, type, name, exp}`. -/
structure TempFile where
  buf : List Nat
  ctype : String
  fname : String
  exp : Nat
deriving DecidableEq

def MemStore := List (String × TempFile)

instance : DecidableEq MemStore := by
  unfold MemStore
  infer_instance

def storeGet (m : MemStore) (k : String) : Option TempFile :=
  match m with
  | [] => none
  | (k2, v) :: rest => if k2 = k then some v else storeGet rest k

/-- Response of `GET /file/:id` (src/index.js lines 579-585). -/
inductive FileResponse where
  | notFound
  | ok (ctype : String) (fname : String) (buf : List Nat)
deriving DecidableEq

/-- src/index.js lines 579-585: a present id is served with its stored
content type and bytes, with no expiry check; a missing id is a 404. -/
def fileGet (store : MemStore) (id : String) : FileResponse :=
  match storeGet store id with
  | none => .notFound
  | some v => .ok v.ctype v.fname v.buf

/-- src/index.js lines 566-569: the sweep deletes exactly the entries whose
`exp` is strictly before `now`. -/
def sweepStore (store : MemStore) (now : Nat) : MemStore :=
  store.filter (fun p => ¬ p.2.exp < now)

/-! ## Outbound handler: POST /sg-inbound (src/index.js lines 636-746) -/

/-- Configuration read from the environment by the outbound handler. -/
structure SgConfig where
  inboundSecret : String
  fromAllow : List String
  waFrom : String
deriving DecidableEq

/-- File part delivered by the inbound-parse webhook (`req.files`); the
random blob id minted by `storeTempFile` is modelled as the given `fileId`. -/
structure SgFile where
  originalname : String
  size : Nat
  fileId : String
deriving DecidableEq

/-- One value of the parsed `attachment-info` JSON: a filename and whether
its disposition marks it inline (inline disposition or a content-id). -/
structure AttachMeta where
  filename : String
  inlineFlag : Bool
deriving DecidableEq

/-- The parsed fields of one inbound-parse POST. -/
structure SgRequest where
  secretHeader : Option String
  sender : String
  recipient : String
  envelope : EnvelopeData
  subject : String
  rawHeaders : String
  textBody : String
  htmlBody : String
  files : List SgFile
  attachInfo : List AttachMeta
deriving DecidableEq

/-- What the handler answered (and, for a relay, what it sent). -/
inductive SgOutcome where
  | forbidden
  | ignoredSender
  | noRecipient
  | badFromConfig
  | badRecipient
  | sent (toAddr : String) (body : String) (mediaUrls : List String)
deriving DecidableEq

structure SgResult where
  outcome : SgOutcome
  map : ThreadMap
  savedKayakoIds : Bool
deriving DecidableEq

/-- src/index.js lines 443-447 `getHeader`: first line starting with the
header name and a colon (case-insensitive), rest of the line trimmed. -/
def getHeaderVal (raw : String) (nm : String) : String :=
  match (splitCh '\n' raw.data).find? (fun l => ciIsPre (nm.data ++ [':']) l) with
  | some l => ⟨jsTrimL (l.drop (nm.length + 1))⟩
  | none => ""

/-- The tail of `/\[Case\s*#(\d+)\]/i` after the opening bracket: `Case`,
whitespace, `#`, captured digits, `]`. -/
def caseTagAt (l : List Char) : Option (List Char) :=
  if ciIsPre ("[case").data l then
    let r := (l.drop 5).dropWhile isJsWs
    match r with
    | '#' :: r2 =>
      let digs := r2.takeWhile isDig
      if ¬ (digs = []) ∧ (r2.drop digs.length).take 1 = [']'] then some digs else none
    | _ => none
  else none

def subjectCaseIdAux : List Char → Option (List Char)
  | [] => none
  | l@(_ :: rest) =>
    match caseTagAt l with
    | some digs => some digs
    | none => subjectCaseIdAux rest

/-- src/index.js lines 663-664: `subject.match(/\[Case\s*#(\d+)\]/i)`,
the captured digit group. -/
def subjectCaseId (subject : String) : Option String :=
  (subjectCaseIdAux subject.data).map (fun digs => ⟨digs⟩)

/-- Scanner for `replace(/<style[\s\S]*?<\/style>/gi, Space)` (fuel-indexed). -/
def findSubCIGo (pat : List Char) : Nat → List Char → Option Nat
  | 0, _ => none
  | _ + 1, [] => if ciIsPre pat [] then some 0 else none
  | fuel + 1, l@(_ :: rest) =>
    if ciIsPre pat l then some 0 else (findSubCIGo pat fuel rest).map (· + 1)

def findSubCI (pat : List Char) (l : List Char) : Option Nat :=
  findSubCIGo pat (l.length + 1) l

def stripStylesGo : Nat → List Char → List Char
  | 0, l => l
  | _ + 1, [] => []
  | fuel + 1, c :: rest =>
    if ciIsPre ("<style").data (c :: rest) then
      match findSubCI ("</style>").data (rest.drop 5) with
      | some j => ' ' :: stripStylesGo fuel ((rest.drop 5).drop (j + 8))
      | none => c :: stripStylesGo fuel rest
    else c :: stripStylesGo fuel rest

def stripStyles (l : List Char) : List Char := stripStylesGo l.length l

/-- `replace(/<[^>]+>/g, Space)` (fuel-indexed). -/
def stripTagsGo : Nat → List Char → List Char
  | 0, l => l
  | _ + 1, [] => []
  | fuel + 1, c :: rest =>
    if c = '<' then
      let inner := rest.takeWhile (fun x => ¬ x = '>')
      if ¬ (inner = []) ∧ (rest.drop inner.length).take 1 = ['>'] then
        ' ' :: stripTagsGo fuel (rest.drop (inner.length + 1))
      else c :: stripTagsGo fuel rest
    else c :: stripTagsGo fuel rest

def stripTags (l : List Char) : List Char := stripTagsGo l.length l

/-- `replace(/&nbsp;/gi, Space)` (fuel-indexed). -/
def nbspGo : Nat → List Char → List Char
  | 0, l => l
  | _ + 1, [] => []
  | fuel + 1, c :: rest =>
    if ciIsPre ("&nbsp;").data (c :: rest) then ' ' :: nbspGo fuel (rest.drop 5)
    else c :: nbspGo fuel rest

def nbspToSpace (l : List Char) : List Char := nbspGo l.length l

/-- `replace(/\s+/g, Space)`: every whitespace run becomes one space. -/
def collapseWsGo : Nat → List Char → List Char
  | 0, l => l
  | _ + 1, [] => []
  | fuel + 1, c :: rest =>
    if isJsWs c then ' ' :: collapseWsGo fuel (rest.dropWhile isJsWs)
    else c :: collapseWsGo fuel rest

def collapseWs (l : List Char) : List Char := collapseWsGo l.length l

/-- src/index.js lines 687-693: fallback rendering of the `html` field. -/
def htmlToText (h : String) : String :=
  jsTrimS ⟨collapseWs (nbspToSpace (stripTags (stripStyles h.data)))⟩

/-- `^whatsapp:\+\d{6,16}$` (src/index.js lines 321, 720, 724). -/
def waAddrOk (s : String) : Bool :=
  match dropLit ("whatsapp:+").data s.data with
  | some ds => ¬ (ds = []) ∧ ds.all isDig ∧ 6 ≤ ds.length ∧ ds.length ≤ 16
  | none => false

def MAX_MEDIA_BYTES : Nat := 10 * 1024 * 1024

/-- src/index.js lines 707-717: skip inline and oversized parts, publish the
rest as temporary URLs, at most ten of them. -/
def collectMedia : List SgFile → List String → Nat → List String
  | [], _, _ => []
  | f :: rest, inl, acc =>
    let nm := ⟨lowerL (if f.originalname = "" then ("file").data else f.originalname.data)⟩
    if (nm : String) ∈ inl then collectMedia rest inl acc
    else if MAX_MEDIA_BYTES < f.size then collectMedia rest inl acc
    else
      let url := "/file/" ++ f.fileId
      if 10 ≤ acc + 1 then [url] else url :: collectMedia rest inl (acc + 1)

/-- src/index.js lines 700-705: names of the inline attachments. -/
def inlineNamesOf (info : List AttachMeta) : List String :=
  (info.filter (fun a => a.inlineFlag)).map (fun a => ⟨lowerL a.filename.data⟩)

/-- The guard of src/index.js lines 638-644. -/
def secretFails (cfg : SgConfig) (req : SgRequest) : Bool :=
  ¬ (cfg.inboundSecret = "") ∧ ¬ (req.secretHeader = some cfg.inboundSecret)

/-- The guard of src/index.js lines 650-654. -/
def allowFails (cfg : SgConfig) (fromAddr : String) : Bool :=
  ¬ (cfg.fromAllow = []) ∧ ¬ (fromAddr ∈ cfg.fromAllow)

/-- The test of src/index.js line 671: the sender matches the helpdesk's
own domain. -/
def isKayakoSender (fromAddr : String) : Bool :=
  containsCI fromAddr ("@kayako.") || containsCI fromAddr ("stickershop.kayako.com")

/-- src/index.js lines 671-681: the record written when the notification
comes from Kayako — Message-ID when it is a kayako one, the subject's case
number when present, and a fresh `updatedAt`. -/
def capturedMeta (meta : ThreadMeta) (msgId : String) (caseIdSubj : Option String)
    (now : Nat) : ThreadMeta :=
  let meta1 := if containsCI msgId ("@kayako.") then
                 { meta with kayakoMsgId := some msgId }
               else meta
  let meta2 := match caseIdSubj with
               | some cid => { meta1 with caseId := some cid }
               | none => meta1
  { meta2 with updatedAt := some now }

/-- src/index.js lines 685-695: plain text preferred, html stripped as a
fallback, sanitized, with the placeholder for an empty result. -/
def sgBody (req : SgRequest) : String :=
  let bodyRaw := jsTrimS req.textBody
  let body0 := if bodyRaw = "" ∧ ¬ (req.htmlBody = "") then htmlToText req.htmlBody
               else bodyRaw
  let body1 := stripQuotedAndSignature body0
  if body1 = "" then "(no text)" else body1

/-- src/index.js lines 698-717. -/
def sgMedia (req : SgRequest) : List String :=
  collectMedia req.files (inlineNamesOf req.attachInfo) 0

/-- src/index.js lines 662-741 after the guards: capture Kayako ids, build
the body, collect media, validate both WhatsApp addresses, then send. -/
def sgDeliver (cfg : SgConfig) (req : SgRequest) (m0 : ThreadMap) (now : Nat)
    (fromAddr : String) (waTo : String) : SgResult :=
  let msgId := getHeaderVal req.rawHeaders ("Message-ID")
  let pr := migrateKeyIfNeeded m0 waTo
  let meta := metaAfterMigration m0 waTo
  let captured :=
    if isKayakoSender fromAddr ∧ ¬ (msgId = "") then
      (mapSet pr.2 (pr.1.getD ("null"))
         (capturedMeta meta msgId (subjectCaseId req.subject) now), true)
    else (pr.2, false)
  if ¬ waAddrOk cfg.waFrom then ⟨.badFromConfig, captured.1, captured.2⟩
  else if ¬ waAddrOk waTo then ⟨.badRecipient, captured.1, captured.2⟩
  else ⟨.sent waTo (sgBody req) (sgMedia req), captured.1, captured.2⟩

/-- POST `/sg-inbound` (src/index.js lines 636-746): secret check, sender
allowlist, recipient derivation, then `sgDeliver`. -/
def sgInbound (cfg : SgConfig) (req : SgRequest) (m0 : ThreadMap) (now : Nat) :
    SgResult :=
  if secretFails cfg req then ⟨.forbidden, m0, false⟩
  else
    let fromAddr := firstAddress req.sender
    if allowFails cfg fromAddr then ⟨.ignoredSender, m0, false⟩
    else
      match toWhatsAppNumber req.recipient req.envelope with
      | none => ⟨.noRecipient, m0, false⟩
      | some waTo => sgDeliver cfg req m0 now fromAddr waTo

/-! ## Concrete fixtures used by counterexamples and witnesses -/

/-- Deployment with `SG_INBOUND_SECRET` and `KAYAKO_FROM_ALLOWLIST` empty
(an empty allowlist disables the sender guard, src/index.js line 651). -/
def cexSgConfig : SgConfig := ⟨"", [], "whatsapp:+447000000001"⟩

/-- A helpdesk-domain notification (an automated Kayako acknowledgment)
about case 42, addressed to the pseudo-identity of +447911123456. -/
def cexSgRequest : SgRequest :=
  { secretHeader := none
    sender := "Kayako <noreply@stickershop.kayako.com>"
    recipient := "447911123456@whatsapp.stickershop.co.uk"
    envelope := .parsed ["447911123456@whatsapp.stickershop.co.uk"]
    subject := "Re: WhatsApp message from whatsapp:+447911123456 [Case #42]"
    rawHeaders := "Received: x\nMessage-ID: <abc@kayako.com>\nSubject: y"
    textBody := "Hello from agent"
    htmlBody := ""
    files := []
    attachInfo := [] }

/-! # Theorems -/

/-! ## Map and migration lemmas -/

theorem mapGet_mapSet_self (m : ThreadMap) (k : String) (v : ThreadMeta) :
    mapGet (mapSet m k v) k = some v := by
  simp [mapSet, mapGet]

theorem migrate_fst {m : ThreadMap} {s k : String} (h : waKey s = some k) :
    (migrateKeyIfNeeded m s).1 = some k := by
  unfold migrateKeyIfNeeded
  rw [h]
  dsimp only
  split <;> rfl

theorem migrate_of_present {m : ThreadMap} {s k : String} {meta : ThreadMeta}
    (h : waKey s = some k) (hrec : mapGet m k = some meta) :
    migrateKeyIfNeeded m s = (some k, m) := by
  unfold migrateKeyIfNeeded
  rw [h]
  dsimp only
  rw [if_neg]
  rintro ⟨-, -, h3⟩
  rw [hrec] at h3
  simp at h3

/-! ## C1: thread stability of the inbound fast path -/

/-- C1 (confirmed).  When the migrated thread-map record for the sender
already carries a (truthy) caseId, `resolveCaseForInbound` returns exactly
that caseId, performs no helpdesk lookup and leaves the map unchanged; and
in every run, the helpdesk lookup is performed only when the migrated
record has no truthy caseId. -/
theorem thread_fast_path_reuses_case
    (m : ThreadMap) (sender : String) (lookupRes : Option String) (now : Nat)
    (key : String) (meta : ThreadMeta) (c : String)
    (hk : waKey sender = some key)
    (hrec : mapGet m key = some meta)
    (hc : meta.caseId = some c) (hcne : ¬ (c = "")) :
    resolveCaseForInbound m sender lookupRes now = ⟨some c, false, m⟩
    ∧ ∀ (m2 : ThreadMap) (s2 : String) (lr2 : Option String) (n2 : Nat),
        (resolveCaseForInbound m2 s2 lr2 n2).performedLookup = true →
        jsTruthy (metaAfterMigration m2 s2).caseId = false := by
  constructor
  · have hmig := migrate_of_present (m := m) hk hrec
    have hmeta : metaAfterMigration m sender = meta := by
      unfold metaAfterMigration
      rw [hmig]
      simp [hrec]
    have hj : jsTruthy meta.caseId = true := by
      rw [hc]
      simpa [jsTruthy] using hcne
    unfold resolveCaseForInbound
    rw [hmig, hmeta, if_neg (by simp [hj])]
    simp [hc]
  · intro m2 s2 lr2 n2 h
    by_cases hj : jsTruthy (metaAfterMigration m2 s2).caseId = true
    · exfalso
      unfold resolveCaseForInbound at h
      rw [if_neg (by simp [hj])] at h
      simp at h
    · simpa using hj

/-- Closed instance of C1: a stored record with caseId 55 is reused as is,
with no lookup, even though a lookup would have answered 99. -/
theorem thread_fast_path_reuses_case_witness :
    waKey ("whatsapp:+447911123456") = some ("whatsapp:+447911123456")
    ∧ resolveCaseForInbound
        [(("whatsapp:+447911123456"), ⟨some ("55"), none, none, none⟩)]
        ("whatsapp:+447911123456") (some ("99")) 3
      = ⟨some ("55"), false,
          [(("whatsapp:+447911123456"), ⟨some ("55"), none, none, none⟩)]⟩ :=
  ⟨by decide,
   (thread_fast_path_reuses_case
      [(("whatsapp:+447911123456"), ⟨some ("55"), none, none, none⟩)]
      ("whatsapp:+447911123456") (some ("99")) 3
      ("whatsapp:+447911123456") ⟨some ("55"), none, none, none⟩ ("55")
      (by decide) (by decide) (by decide) (by decide)).1⟩

/-! ## C4: saveThreadMap swallows persistence failures -/

/-- C4 counterexample.  A failing `writeFileSync` makes the try-block fail,
yet `saveThreadMap` still returns normally: the failure is not surfaced. -/
theorem save_thread_map_swallows_cex :
    saveAttempt FsOutcome.success (FsOutcome.failure ("ENOSPC"))
      = Except.error ("ENOSPC")
    ∧ saveThreadMap FsOutcome.success (FsOutcome.failure ("ENOSPC"))
      = Except.ok () := by decide

/-- C4 (corrected).  `saveThreadMap` returns success for every filesystem
outcome (the catch block only logs), so a caller can never observe a write
failure; the fall back to helpdesk discovery happens only because a lost
record leaves the map without a key, in which case the next
`resolveCaseForInbound` performs the lookup. -/
theorem save_thread_map_amended :
    (∀ mk w : FsOutcome, saveThreadMap mk w = Except.ok ())
    ∧ (∀ (m : ThreadMap) (sender : String) (lookupRes : Option String)
         (now : Nat) (key : String),
        waKey sender = some key →
        mapGet (migrateKeyIfNeeded m sender).2 key = none →
        (resolveCaseForInbound m sender lookupRes now).performedLookup = true) := by
  constructor
  · intro mk w
    cases mk <;> cases w <;> rfl
  · intro m sender lookupRes now key hk h2
    have hf := migrate_fst (m := m) hk
    have hmeta : metaAfterMigration m sender = emptyMeta := by
      simp [metaAfterMigration, hf, h2]
    unfold resolveCaseForInbound
    rw [hmeta]
    cases lookupRes <;> simp [jsTruthy, emptyMeta]

/-! ## C5: the empty-body placeholder lives at the call site -/

/-- C5 counterexample.  `stripQuotedAndSignature` itself returns the empty
string both for the empty input and for the all-blank input. -/
theorem sanitize_empty_returns_empty_cex :
    stripQuotedAndSignature ("") = ""
    ∧ stripQuotedAndSignature ("   ") = "" := by decide

/-- C5 (corrected).  The sanitizer function returns the empty string on
empty or blank input; the fixed non-empty placeholder is substituted by its
caller in `/sg-inbound`, so the body handed to the transport is never
empty. -/
theorem sanitize_placeholder_amended :
    stripQuotedAndSignature ("") = ""
    ∧ stripQuotedAndSignature ("   ") = ""
    ∧ sanitizeAtCallSite ("") = ("(no text)")
    ∧ sanitizeAtCallSite ("   ") = ("(no text)")
    ∧ ∀ x : String, 0 < (sanitizeAtCallSite x).length := by
  refine ⟨by decide, by decide, by decide, by decide, ?_⟩
  intro x
  unfold sanitizeAtCallSite
  by_cases hb : stripQuotedAndSignature x = ""
  · rw [if_pos hb]
    decide
  · rw [if_neg hb]
    cases hsx : stripQuotedAndSignature x with
    | mk l =>
      cases l with
      | nil => exact absurd hsx (by simpa using hb)
      | cons c t => simp [String.length]

/-! ## C9: the sanitizer boundary example -/

/-- C9 (confirmed).  The spec's boundary example evaluates exactly to
`Thanks!`. -/
theorem sanitizer_boundary_example :
    stripQuotedAndSignature
      ("Thanks!\n\nOn Mon, Jan 1, Alice wrote:\n> old message\n\n-- \nAlice Smith\nRegistered address: 1 Street")
      = ("Thanks!") := by decide

/-! ## C6: sanitization is not idempotent -/

/-- C6 counterexample.  Stripping an `[img ...]` placeholder exposes a
quote marker, so a second application strips further. -/
theorem sanitize_not_idempotent_cex :
    stripQuotedAndSignature ("a\n[img]> b") = ("a\n > b")
    ∧ stripQuotedAndSignature (stripQuotedAndSignature ("a\n[img]> b")) = ("a")
    ∧ ¬ (stripQuotedAndSignature (stripQuotedAndSignature ("a\n[img]> b"))
          = stripQuotedAndSignature ("a\n[img]> b")) := by decide

/-! ## C2 counterexample: the round-trip fails on an address containing @ -/

/-- C2 counterexample.  The address has the channel prefix and a digit, yet
decoding its encoding yields null, not the canonical address. -/
theorem identity_roundtrip_at_sign_cex :
    ("whatsapp:+1@x").data.take 9 = ("whatsapp:").data
    ∧ ("whatsapp:+1@x").data.any isDig = true
    ∧ emailToWhatsappAddress (buildFromAddress ("whatsapp:+1@x")) = none := by decide

/-! ## C7 counterexample: the decoder is not null on mixed local parts -/

/-- C7 counterexample.  A local part that is not all digits still decodes
(the decoder filters the digits out), contradicting the claimed null. -/
theorem decoder_nondigit_local_cex :
    ("a1").data.all isDig = false
    ∧ emailToWhatsappAddress ("a1@whatsapp.stickershop.co.uk")
        = some ("whatsapp:+1") := by decide

/-! ## C8: no InvalidAddress failure in the code -/

/-- C8 counterexample.  Two digits remain, the spec-modelled codec fails
with InvalidAddress, but `buildFromAddress` happily produces an address. -/
theorem short_number_no_failure_cex :
    (digitsL (strippedNum ("whatsapp:+12"))).length < 6
    ∧ toPseudoIdentitySpec ("whatsapp:+12") = Except.error SpecError.invalidAddress
    ∧ buildFromAddress ("whatsapp:+12") = ("12@whatsapp.stickershop.co.uk") := by decide

/-- C8 (corrected).  `buildFromAddress` performs no digit-count validation:
whenever fewer than six digits remain (where the spec-modelled
`toPseudoIdentity` fails with InvalidAddress), the code still returns the
stripped number joined to the domain. -/
theorem short_number_amended (phone : String)
    (h : (digitsL (strippedNum phone)).length < 6) :
    toPseudoIdentitySpec phone = Except.error SpecError.invalidAddress
    ∧ buildFromAddress phone = ⟨strippedNum phone ++ '@' :: FROM_DOMAIN.data⟩ := by
  constructor
  · simp [toPseudoIdentitySpec, h]
  · rfl

/-- Closed instance of C8's amended statement. -/
theorem short_number_amended_witness :
    (digitsL (strippedNum ("whatsapp:+12"))).length < 6
    ∧ (toPseudoIdentitySpec ("whatsapp:+12") = Except.error SpecError.invalidAddress
       ∧ buildFromAddress ("whatsapp:+12")
           = ⟨strippedNum ("whatsapp:+12") ++ '@' :: FROM_DOMAIN.data⟩) :=
  ⟨by decide, short_number_amended ("whatsapp:+12") (by decide)⟩

/-! ## C3 counterexample: helpdesk acknowledgments are not stopped -/

/-- C3 counterexample.  A notification whose sender matches the helpdesk
domain (and which passes the configured empty allowlist) has its anchor
recorded, yet the handler does not stop: a chat message is still sent. -/
theorem kayako_ack_forwarded_cex :
    isKayakoSender (firstAddress cexSgRequest.sender) = true
    ∧ (sgInbound cexSgConfig cexSgRequest [] 7).savedKayakoIds = true
    ∧ (sgInbound cexSgConfig cexSgRequest [] 7).outcome
        = SgOutcome.sent ("whatsapp:+447911123456") ("Hello from agent") [] := by decide

/-! ## C10: the temporary media store ignores expiry on read -/

theorem storeGet_eq_none_of_not_mem {k : String} :
    ∀ m : MemStore, ¬ k ∈ m.map Prod.fst → storeGet m k = none := by
  intro m
  induction m with
  | nil => intro _; rfl
  | cons hd tl ih =>
    intro h
    obtain ⟨k2, v2⟩ := hd
    simp only [List.map_cons, List.mem_cons] at h
    push_neg at h
    rw [storeGet, if_neg (Ne.symm h.1)]
    exact ih h.2

theorem storeGet_sweep_expired {k : String} {v : TempFile} {now : Nat} :
    ∀ m : MemStore, (m.map Prod.fst).Nodup → storeGet m k = some v →
      v.exp < now → storeGet (sweepStore m now) k = none := by
  intro m
  induction m with
  | nil => intro _ h _; simp [storeGet] at h
  | cons hd tl ih =>
    intro hnd h he
    obtain ⟨k2, v2⟩ := hd
    rw [List.map_cons, List.nodup_cons] at hnd
    simp only [sweepStore, List.filter_cons]
    by_cases hk : k2 = k
    · subst hk
      rw [storeGet, if_pos rfl] at h
      injection h with h2
      subst h2
      rw [if_neg (by simp [he])]
      refine storeGet_eq_none_of_not_mem _ ?_
      intro hmem
      exact hnd.1 (((List.filter_sublist _).map Prod.fst).subset hmem)
    · rw [storeGet, if_neg hk] at h
      have ihr : storeGet (sweepStore tl now) k = none := ih hnd.2 h he
      simp only [sweepStore] at ihr
      by_cases hp : v2.exp < now
      · rw [if_neg (by simp [hp])]
        exact ihr
      · rw [if_pos (by simp [hp]), storeGet, if_neg hk]
        exact ihr

theorem storeGet_sweep_keep {k : String} {v : TempFile} {now : Nat} :
    ∀ m : MemStore, storeGet m k = some v → ¬ v.exp < now →
      storeGet (sweepStore m now) k = some v := by
  intro m
  induction m with
  | nil => intro h _; simp [storeGet] at h
  | cons hd tl ih =>
    intro h hv
    obtain ⟨k2, v2⟩ := hd
    simp only [sweepStore, List.filter_cons]
    by_cases hk : k2 = k
    · subst hk
      rw [storeGet, if_pos rfl] at h
      injection h with h2
      subst h2
      rw [if_pos (by simp [hv]), storeGet, if_pos rfl]
    · rw [storeGet, if_neg hk] at h
      have ihr := ih h hv
      simp only [sweepStore] at ihr
      by_cases hp : v2.exp < now
      · rw [if_neg (by simp [hp])]
        exact ihr
      · rw [if_pos (by simp [hp]), storeGet, if_neg hk]
        exact ihr

theorem sweep_unexpired {k2 : String} {v2 : TempFile} {now : Nat} :
    ∀ m : MemStore, storeGet (sweepStore m now) k2 = some v2 → ¬ v2.exp < now := by
  intro m
  induction m with
  | nil => intro h; simp [sweepStore, storeGet] at h
  | cons hd tl ih =>
    intro h
    obtain ⟨kh, vh⟩ := hd
    simp only [sweepStore, List.filter_cons] at h
    by_cases hp : vh.exp < now
    · rw [if_neg (by simp [hp])] at h
      exact ih (by simpa [sweepStore] using h)
    · rw [if_pos (by simp [hp])] at h
      rw [storeGet] at h
      by_cases hk : kh = k2
      · rw [if_pos hk] at h
        injection h with h2
        subst h2
        exact hp
      · rw [if_neg hk] at h
        exact ih (by simpa [sweepStore] using h)

/-- C10 (confirmed).  `GET /file/:id` serves the stored bytes with their
content type exactly when the id is in the store — with no expiry check, so
an entry whose expiry already passed is still served — and a 404 otherwise;
the periodic sweep deletes exactly the entries whose expiry is strictly in
the past, after which the expired id reads as 404. -/
theorem temp_file_expiry_read
    (store : MemStore) (id : String) (v : TempFile) (now : Nat)
    (hnd : (store.map Prod.fst).Nodup)
    (hget : storeGet store id = some v)
    (hexp : v.exp < now) :
    fileGet store id = FileResponse.ok v.ctype v.fname v.buf
    ∧ fileGet (sweepStore store now) id = FileResponse.notFound
    ∧ (∀ (id2 : String) (v2 : TempFile),
        storeGet (sweepStore store now) id2 = some v2 → ¬ v2.exp < now)
    ∧ (∀ (id2 : String) (v2 : TempFile),
        storeGet store id2 = some v2 → ¬ v2.exp < now →
        storeGet (sweepStore store now) id2 = some v2)
    ∧ (∀ id3 : String, storeGet store id3 = none →
        fileGet store id3 = FileResponse.notFound) := by
  refine ⟨?_, ?_, ?_, ?_, ?_⟩
  · simp [fileGet, hget]
  · simp [fileGet, storeGet_sweep_expired store hnd hget hexp]
  · intro id2 v2 h
    exact sweep_unexpired store h
  · intro id2 v2 h hv
    exact storeGet_sweep_keep store h hv
  · intro id3 h
    simp [fileGet, h]

/-- Closed instance of C10: an entry expired at 5 is still served at
now = 10 until the sweep removes it. -/
theorem temp_file_expiry_read_witness :
    (storeGet [(("a"), ⟨[7], "image/png", "f.png", 5⟩)] ("a")
       = some ⟨[7], "image/png", "f.png", 5⟩)
    ∧ (fileGet [(("a"), ⟨[7], "image/png", "f.png", 5⟩)] ("a")
         = FileResponse.ok ("image/png") ("f.png") [7]
       ∧ fileGet (sweepStore [(("a"), ⟨[7], "image/png", "f.png", 5⟩)] 10) ("a")
         = FileResponse.notFound
       ∧ (∀ (id2 : String) (v2 : TempFile),
           storeGet (sweepStore [(("a"), ⟨[7], "image/png", "f.png", 5⟩)] 10) id2
             = some v2 → ¬ v2.exp < 10)
       ∧ (∀ (id2 : String) (v2 : TempFile),
           storeGet [(("a"), ⟨[7], "image/png", "f.png", 5⟩)] id2 = some v2 →
           ¬ v2.exp < 10 →
           storeGet (sweepStore [(("a"), ⟨[7], "image/png", "f.png", 5⟩)] 10) id2
             = some v2)
       ∧ (∀ id3 : String, storeGet [(("a"), ⟨[7], "image/png", "f.png", 5⟩)] id3 = none →
           fileGet [(("a"), ⟨[7], "image/png", "f.png", 5⟩)] id3
             = FileResponse.notFound)) :=
  ⟨by decide,
   temp_file_expiry_read [(("a"), ⟨[7], "image/png", "f.png", 5⟩)] ("a")
     ⟨[7], "image/png", "f.png", 5⟩ 10 (by decide) (by decide) (by decide)⟩

/-! ## C6 amended: every sanitizer pass is length-nonincreasing -/

theorem splitCh_ne_nil (sep : Char) : ∀ l : List Char, ¬ splitCh sep l = [] := by
  intro l
  induction l with
  | nil => simp [splitCh]
  | cons c rest ih =>
    simp only [splitCh]
    by_cases hc : c = sep
    · simp [hc]
    · rw [if_neg hc]
      cases hsp : splitCh sep rest with
      | nil => simp
      | cons h t => simp

theorem joinNL_splitCh : ∀ l : List Char, joinNL (splitCh '\n' l) = l := by
  intro l
  induction l with
  | nil => rfl
  | cons c rest ih =>
    simp only [splitCh]
    cases hsp : splitCh '\n' rest with
    | nil => exact absurd hsp (splitCh_ne_nil '\n' rest)
    | cons h1 t1 =>
      rw [hsp] at ih
      by_cases hc : c = '\n'
      · subst hc
        rw [if_pos rfl]
        cases t1 with
        | nil => simpa [joinNL] using ih
        | cons h2 t2 => simpa [joinNL] using ih
      · rw [if_neg hc]
        cases t1 with
        | nil => simpa [joinNL] using ih
        | cons h2 t2 => simpa [joinNL] using ih

theorem joinNL_len_le_cons (a : List Char) (L : List (List Char)) :
    (joinNL L).length ≤ (joinNL (a :: L)).length := by
  cases L with
  | nil => simp [joinNL]
  | cons b t =>
    have : joinNL (a :: b :: t) = a ++ '\n' :: joinNL (b :: t) := by simp [joinNL]
    rw [this]
    simp
    omega

theorem joinNL_len_le_of_sublist {L1 L2 : List (List Char)} (h : L1.Sublist L2) :
    (joinNL L1).length ≤ (joinNL L2).length := by
  induction h with
  | slnil => simp
  | @cons l1 l2 a _ ih => exact le_trans ih (joinNL_len_le_cons a l2)
  | @cons₂ l1 l2 a h ih =>
    cases l1 with
    | nil =>
      cases l2 with
      | nil => simp
      | cons b t =>
        have h2 : joinNL (a :: b :: t) = a ++ '\n' :: joinNL (b :: t) := by simp [joinNL]
        simp [joinNL, h2]
    | cons c t1 =>
      cases l2 with
      | nil => simp at h
      | cons b t2 =>
        have e1 : joinNL (a :: c :: t1) = a ++ '\n' :: joinNL (c :: t1) := by simp [joinNL]
        have e2 : joinNL (a :: b :: t2) = a ++ '\n' :: joinNL (b :: t2) := by simp [joinNL]
        rw [e1, e2]
        simp only [List.length_append, List.length_cons]
        omega

theorem len_stepQuotes (l : List Char) : (stepQuotes l).length ≤ l.length := by
  have h := joinNL_len_le_of_sublist
    (List.filter_sublist (l := splitCh '\n' l) (p := fun ln => ¬ lineIsQuote ln))
  rw [joinNL_splitCh] at h
  exact h

theorem len_cut {l : List Char} (o : Option Nat) :
    (match o with | some i => l.take i | none => l).length ≤ l.length := by
  cases o with
  | none => simp
  | some i => simp [List.length_take]

theorem len_stepWrote (l : List Char) : (stepWrote l).length ≤ l.length :=
  len_cut (searchLine predWrote l)

theorem len_stepHdr (l : List Char) : (stepHdr l).length ≤ l.length :=
  len_cut (searchLine predHdr l)

theorem len_stepSep (l : List Char) : (stepSep l).length ≤ l.length :=
  len_cut (searchLine predSep l)

theorem len_stepFields (l : List Char) : (stepFields l).length ≤ l.length :=
  len_cut (searchLine predFields l)

theorem len_stepLegal (l : List Char) : (stepLegal l).length ≤ l.length :=
  len_cut (searchSubAux legalAt l)

theorem len_stepKill (l : List Char) : (stepKill l).length ≤ l.length := by
  unfold stepKill
  cases h1 : searchSubAux (fun t => ciIsPre ("stickershop is a trading division").data t) l with
  | some i => simp [List.length_take]
  | none =>
    cases h2 : searchSubAux (fun t => ciIsPre ("theprintshop ltd").data t) l with
    | some i => simp [List.length_take]
    | none => simp

theorem len_stepImgGo : ∀ (fuel : Nat) (l : List Char),
    (stepImgGo fuel l).length ≤ l.length := by
  intro fuel
  induction fuel with
  | zero => intro l; simp [stepImgGo]
  | succ n ih =>
    intro l
    cases l with
    | nil => simp [stepImgGo]
    | cons c rest =>
      simp only [stepImgGo]
      split
      · cases hp : pastRBracket (rest.drop 3) with
        | some after =>
          have h1 := pastRBracket_length hp
          have h2 := List.length_drop 3 rest
          have h3 := ih after
          simp only [List.length_cons]
          omega
        | none =>
          have := ih rest
          simp only [List.length_cons]
          omega
      · have := ih rest
        simp only [List.length_cons]
        omega

theorem len_stepImg (l : List Char) : (stepImg l).length ≤ l.length :=
  len_stepImgGo l.length l

theorem len_stepWsEol : ∀ l : List Char, (stepWsEol l).length ≤ l.length := by
  intro l
  induction l with
  | nil => simp [stepWsEol]
  | cons c rest ih =>
    simp only [stepWsEol] at ih ⊢
    rw [List.foldr_cons]
    split
    · simp only [List.length_cons]
      omega
    · simp only [List.length_cons]
      omega

theorem len_stepNlGo : ∀ (fuel : Nat) (l : List Char),
    (stepNlGo fuel l).length ≤ l.length := by
  intro fuel l
  induction fuel, l using stepNlGo.induct with
  | case1 l => simp [stepNlGo]
  | case2 n => simp [stepNlGo]
  | case3 n rest ih =>
    have h1 := (List.dropWhile_sublist (l := rest) (fun c => c = '\n')).length_le
    simp only [stepNlGo, List.length_cons]
    omega
  | case4 n c rest h ih =>
    simp only [stepNlGo, List.length_cons]
    omega

theorem len_stepNl (l : List Char) : (stepNl l).length ≤ l.length :=
  len_stepNlGo l.length l

theorem len_jsTrimL (l : List Char) : (jsTrimL l).length ≤ l.length := by
  unfold jsTrimL
  have h1 := (List.dropWhile_sublist (l := l) isJsWs).length_le
  have h2 := (List.dropWhile_sublist (l := (l.dropWhile isJsWs).reverse) isJsWs).length_le
  simp only [List.length_reverse] at *
  omega

theorem len_stepCap (l : List Char) : (stepCap l).length ≤ l.length := by
  unfold stepCap
  split
  · simp [List.length_take]
    omega
  · simp

theorem len_normCRLF : ∀ l : List Char, (normCRLF l).length ≤ l.length := by
  intro l
  induction l using normCRLF.induct with
  | case1 => simp [normCRLF]
  | case2 rest ih =>
    simp only [normCRLF, List.length_cons]
    omega
  | case3 c rest h ih =>
    simp only [normCRLF, List.length_cons]
    omega

theorem len_stripQSL (l : List Char) : (stripQSL l).length ≤ l.length := by
  unfold stripQSL
  refine le_trans (len_stepCap _) (le_trans (len_jsTrimL _)
    (le_trans (len_stepNl _) (le_trans (len_stepWsEol _)
    (le_trans (len_stepKill _) (le_trans (len_stepImg _)
    (le_trans (len_stepLegal _) (le_trans (len_stepFields _)
    (le_trans (len_stepSep _) (le_trans (len_stepHdr _)
    (le_trans (len_stepWrote _) (le_trans (len_stepQuotes _)
    (len_normCRLF _))))))))))))

/-- C6 (corrected).  The sanitizer is total by construction, but it is not
idempotent (see the counterexample); what does hold is that it never grows
the text: one pass is length-nonincreasing, so in particular a second pass
never lengthens the first pass's result. -/
theorem sanitize_shrinking_amended :
    (∀ x : String, (stripQuotedAndSignature x).length ≤ x.length)
    ∧ (∀ x : String,
        (stripQuotedAndSignature (stripQuotedAndSignature x)).length
          ≤ (stripQuotedAndSignature x).length) := by
  have hone : ∀ x : String, (stripQuotedAndSignature x).length ≤ x.length := by
    intro x
    unfold stripQuotedAndSignature
    split
    · simp
    · show (stripQSL x.data).length ≤ x.data.length
      exact len_stripQSL x.data
  exact ⟨hone, fun x => hone (stripQuotedAndSignature x)⟩

/-! ## Character-level lemmas for the identity codec -/

theorem char_ofNat_small {n : Nat} (h : n < 55296) : (Char.ofNat n).toNat = n := by
  rw [Char.ofNat, dif_pos (Or.inl h)]
  rfl

theorem isDig_jsToLower (c : Char) : isDig (jsToLower c) = isDig c := by
  unfold jsToLower
  split
  · rename_i h
    simp only [Bool.and_eq_true, decide_eq_true_eq] at h
    have hv : (Char.ofNat (c.toNat + 32)).toNat = c.toNat + 32 :=
      char_ofNat_small (by omega)
    unfold isDig
    rw [hv]
    have l1 : (decide (c.toNat + 32 ≤ 57)) = false := decide_eq_false (by omega)
    have l2 : (decide (c.toNat ≤ 57)) = false := decide_eq_false (by omega)
    rw [l1, l2]
    simp
  · rfl

theorem jsToLower_of_isDig {c : Char} (h : isDig c = true) : jsToLower c = c := by
  unfold isDig at h
  simp only [Bool.and_eq_true, decide_eq_true_eq] at h
  unfold jsToLower
  rw [if_neg]
  simp only [Bool.and_eq_true, decide_eq_true_eq]
  omega

theorem jsToLower_at_inv {c : Char} (h : jsToLower c = '@') : c = '@' := by
  by_cases hr : (65 ≤ c.toNat && c.toNat ≤ 90) = true
  · exfalso
    unfold jsToLower at h
    rw [if_pos hr] at h
    simp only [Bool.and_eq_true, decide_eq_true_eq] at hr
    have h2 := congrArg Char.toNat h
    rw [char_ofNat_small (by omega)] at h2
    have h3 : ('@').toNat = 64 := by decide
    omega
  · unfold jsToLower at h
    rw [if_neg hr] at h
    exact h

theorem at_not_mem_lowerL {l : List Char} (h : ¬ '@' ∈ l) : ¬ '@' ∈ lowerL l := by
  intro hm
  obtain ⟨c, hc, he⟩ := List.mem_map.mp hm
  exact h (jsToLower_at_inv he ▸ hc)

theorem digitsL_lowerL : ∀ l : List Char, digitsL (lowerL l) = digitsL l := by
  intro l
  induction l with
  | nil => rfl
  | cons c rest ih =>
    simp only [lowerL, List.map_cons, digitsL, List.filter_cons] at *
    rw [isDig_jsToLower]
    by_cases hd : isDig c = true
    · rw [hd]
      simp only [jsToLower_of_isDig hd, ih]
    · simp only [Bool.not_eq_true] at hd
      rw [hd]
      simp only [Bool.false_eq_true, if_false, ih]

theorem isDig_of_ws {c : Char} (h : isJsWs c = true) : isDig c = false := by
  unfold isJsWs at h
  simp only [Bool.or_eq_true, decide_eq_true_eq] at h
  rcases h with ((((h | h) | h) | h) | h) | h <;> subst h <;> decide

theorem digitsL_dropWhile_ws : ∀ l : List Char,
    digitsL (l.dropWhile isJsWs) = digitsL l := by
  intro l
  induction l with
  | nil => rfl
  | cons c rest ih =>
    rw [List.dropWhile_cons]
    by_cases hw : isJsWs c = true
    · rw [if_pos hw, ih]
      simp only [digitsL, List.filter_cons, isDig_of_ws hw]
      simp
    · simp only [Bool.not_eq_true] at hw
      rw [hw]
      simp

theorem splitCh_not_mem {sep : Char} : ∀ l : List Char, ¬ sep ∈ l →
    splitCh sep l = [l] := by
  intro l
  induction l with
  | nil => intro _; rfl
  | cons c rest ih =>
    intro h
    simp only [List.mem_cons] at h
    push_neg at h
    simp only [splitCh]
    rw [if_neg (Ne.symm h.1), ih h.2]

theorem splitCh_append {sep : Char} : ∀ xs ys : List Char, ¬ sep ∈ xs →
    splitCh sep (xs ++ sep :: ys) = xs :: splitCh sep ys := by
  intro xs
  induction xs with
  | nil =>
    intro ys _
    simp [splitCh]
  | cons x t ih =>
    intro ys h
    simp only [List.mem_cons] at h
    push_neg at h
    simp only [List.cons_append, splitCh, List.append_eq]
    rw [if_neg (Ne.symm h.1), ih ys h.2]

theorem dropWhile_app_cons {p : Char → Bool} {c : Char} (hc : p c = false)
    (a b : List Char) : (a ++ c :: b).dropWhile p = a.dropWhile p ++ c :: b := by
  rw [List.dropWhile_append]
  split
  · rename_i h
    rw [List.dropWhile_cons, hc]
    simp only [List.isEmpty_iff] at h
    rw [h]
    simp
  · rfl

theorem dropWhile_idem {p : Char → Bool} : ∀ l : List Char,
    (l.dropWhile p).dropWhile p = l.dropWhile p := by
  intro l
  induction l with
  | nil => rfl
  | cons c rest ih =>
    rw [List.dropWhile_cons]
    by_cases hw : p c = true
    · rw [if_pos hw]
      exact ih
    · simp only [Bool.not_eq_true] at hw
      rw [if_neg (by simp [hw]), List.dropWhile_cons, hw]
      simp

/-- Decoding a split shape: the recogniser answers null exactly when the
local part is empty, the domain does not match, or no digit remains. -/
theorem decodePostTrim_split (lcl dom : List Char)
    (hl : ¬ '@' ∈ lcl) (hd : ¬ '@' ∈ dom) :
    decodePostTrim (lcl ++ '@' :: dom)
      = if lcl = [] ∨ ¬ (dom = lowerL FROM_DOMAIN.data) ∨ digitsL lcl = []
        then none else some ⟨("whatsapp:+").data ++ digitsL lcl⟩ := by
  unfold decodePostTrim
  rw [splitCh_append _ _ hl, splitCh_not_mem _ hd]
  dsimp only
  by_cases h1 : lcl = [] <;> by_cases h2 : dom = lowerL FROM_DOMAIN.data
    <;> by_cases h3 : digitsL lcl = [] <;> simp [h1, h2, h3]

/-! ## C7 amended: the decoder as a recognizer -/

/-- C7 (corrected).  On an email-shaped input `<local>@<domain>` (already
trimmed), the decoder returns null exactly when the local part is empty,
the domain (case-insensitively) differs from the configured domain, or the
local part contains no digit at all; otherwise it returns
`whatsapp:+<digits of local>` — so a local part that is not all digits is
not rejected, its digits are extracted. -/
theorem decoder_recognizer_amended (e : String) (lcl dom : List Char)
    (hsplit : e.data = lcl ++ '@' :: dom)
    (hl : ¬ '@' ∈ lcl) (hd : ¬ '@' ∈ dom)
    (htrim : jsTrimL e.data = e.data) :
    emailToWhatsappAddress e
      = if lcl = [] ∨ ¬ (lowerL dom = lowerL FROM_DOMAIN.data) ∨ digitsL lcl = []
        then none else some ⟨("whatsapp:+").data ++ digitsL lcl⟩ := by
  unfold emailToWhatsappAddress
  rw [htrim, hsplit]
  have hmap : lowerL (lcl ++ '@' :: dom) = lowerL lcl ++ '@' :: lowerL dom := by
    simp only [lowerL, List.map_append, List.map_cons]
    norm_num [show jsToLower '@' = '@' from by decide]
  rw [hmap,
    decodePostTrim_split _ _ (at_not_mem_lowerL hl) (at_not_mem_lowerL hd),
    digitsL_lowerL lcl]
  simp only [show (lowerL lcl = []) ↔ (lcl = []) from by simp [lowerL]]

/-- Closed instance of C7's amended statement at the counterexample's
input: the mixed local part `a1` decodes to its digits. -/
theorem decoder_recognizer_amended_witness :
    emailToWhatsappAddress ("a1@whatsapp.stickershop.co.uk")
      = if ("a1").data = []
          ∨ ¬ (lowerL ("whatsapp.stickershop.co.uk").data = lowerL FROM_DOMAIN.data)
          ∨ digitsL ("a1").data = []
        then none else some ⟨("whatsapp:+").data ++ digitsL ("a1").data⟩ :=
  decoder_recognizer_amended ("a1@whatsapp.stickershop.co.uk")
    (("a1").data) (("whatsapp.stickershop.co.uk").data)
    (by decide) (by decide) (by decide) (by decide)

/-! ## C2 amended: the identity round-trip -/

theorem dropLit_append (pat r : List Char) : dropLit pat (pat ++ r) = some r := by
  unfold dropLit
  rw [List.take_left, if_pos rfl, List.drop_left]

theorem strippedNum_eq (a : String) (body : List Char)
    (hpre : a.data = ("whatsapp:").data ++ body) :
    strippedNum a = body ∨ ∃ r, body = '+' :: r ∧ strippedNum a = r := by
  unfold strippedNum stripOnceLit
  rw [hpre, dropLit_append]
  dsimp only
  cases body with
  | nil => exact Or.inl rfl
  | cons c rest =>
    by_cases hc : c = '+'
    · subst hc
      exact Or.inr ⟨rest, rfl, rfl⟩
    · left
      split
      · rename_i heq
        injection heq with h1 _
        exact absurd h1 hc
      · rfl

/-- C2 (corrected).  For every chat address with the channel prefix, at
least one digit, and no `@` character in its body, decoding the encoded
pseudo-identity returns the canonical `whatsapp:+<digits of a>`.  (Without
the no-`@` restriction the round-trip fails, see the counterexample.) -/
theorem identity_roundtrip_amended (a : String) (body : List Char)
    (hpre : a.data = ("whatsapp:").data ++ body)
    (hat : ¬ '@' ∈ body)
    (hdig : body.any isDig = true) :
    emailToWhatsappAddress (buildFromAddress a)
      = some ⟨("whatsapp:+").data ++ digitsL a.data⟩ := by
  have hdignil : ¬ digitsL body = [] := by
    intro hnil
    obtain ⟨c, hc, hpc⟩ := List.any_eq_true.mp hdig
    have hmem : c ∈ digitsL body := List.mem_filter.mpr ⟨hc, hpc⟩
    rw [hnil] at hmem
    exact absurd hmem (List.not_mem_nil c)
  have hsn : (¬ '@' ∈ strippedNum a) ∧ digitsL (strippedNum a) = digitsL body := by
    rcases strippedNum_eq a body hpre with h | ⟨r, hb, h⟩
    · rw [h]
      exact ⟨hat, rfl⟩
    · rw [h]
      subst hb
      refine ⟨fun hm => hat (List.mem_cons_of_mem _ hm), ?_⟩
      simp [digitsL, List.filter_cons, show isDig '+' = false from by decide]
  have hbuild : (buildFromAddress a).data
      = strippedNum a ++ '@' :: FROM_DOMAIN.data := rfl
  unfold emailToWhatsappAddress
  rw [hbuild]
  have htriml : (strippedNum a ++ '@' :: FROM_DOMAIN.data).dropWhile isJsWs
      = (strippedNum a).dropWhile isJsWs ++ '@' :: FROM_DOMAIN.data :=
    dropWhile_app_cons (by decide) _ _
  have htrim : jsTrimL (strippedNum a ++ '@' :: FROM_DOMAIN.data)
      = (strippedNum a).dropWhile isJsWs ++ '@' :: FROM_DOMAIN.data := by
    unfold jsTrimL
    rw [htriml]
    have hrev : (((strippedNum a).dropWhile isJsWs) ++ '@' :: FROM_DOMAIN.data).reverse
        = 'k' :: (("u.oc.pohsrekcits.ppastahw").data
                   ++ '@' :: ((strippedNum a).dropWhile isJsWs).reverse) := by
      rw [List.reverse_append, List.reverse_cons]
      rw [show FROM_DOMAIN.data.reverse
            = 'k' :: ("u.oc.pohsrekcits.ppastahw").data from by decide]
      simp
    rw [hrev, List.dropWhile_cons]
    rw [show isJsWs 'k' = false from by decide]
    simp only [Bool.false_eq_true, if_false]
    rw [← hrev, List.reverse_reverse]
  rw [htrim]
  have hmap : lowerL ((strippedNum a).dropWhile isJsWs ++ '@' :: FROM_DOMAIN.data)
      = lowerL ((strippedNum a).dropWhile isJsWs) ++ '@' :: FROM_DOMAIN.data := by
    simp only [lowerL, List.map_append, List.map_cons]
    rw [show jsToLower '@' = '@' from by decide,
        show FROM_DOMAIN.data.map jsToLower = FROM_DOMAIN.data from by decide]
  rw [hmap]
  have hqat : ¬ '@' ∈ (strippedNum a).dropWhile isJsWs :=
    fun hm => hsn.1 ((List.dropWhile_sublist _).subset hm)
  rw [decodePostTrim_split _ _ (at_not_mem_lowerL hqat) (by decide)]
  have hdq : digitsL (lowerL ((strippedNum a).dropWhile isJsWs)) = digitsL body := by
    rw [digitsL_lowerL, digitsL_dropWhile_ws, hsn.2]
  rw [if_neg]
  · rw [hdq]
    rw [show digitsL a.data = digitsL body from by
      rw [hpre]
      simp only [digitsL, List.filter_append]
      rw [show ("whatsapp:").data.filter isDig = [] from by decide]
      simp]
  · push_neg
    refine ⟨?_, ?_, ?_⟩
    · intro hemp
      apply hdignil
      rw [← hdq, hemp]
      rfl
    · decide
    · rw [hdq]
      exact hdignil

/-- Closed instance of C2's amended statement: a prefixed address with
spacing and a dash round-trips to its digits. -/
theorem identity_roundtrip_amended_witness :
    emailToWhatsappAddress (buildFromAddress ("whatsapp:+44 7911-123456"))
      = some ⟨("whatsapp:+").data ++ digitsL ("whatsapp:+44 7911-123456").data⟩ :=
  identity_roundtrip_amended ("whatsapp:+44 7911-123456")
    (("+44 7911-123456").data) (by decide) (by decide) (by decide)

/-! ## C3 amended: helpdesk notifications are captured but still relayed -/

theorem dropLit_eq_some {pat l r : List Char} (h : dropLit pat l = some r) :
    l = pat ++ r := by
  unfold dropLit at h
  split at h
  · rename_i ht
    injection h with h2
    conv_lhs => rw [← List.take_append_drop pat.length l]
    rw [ht, h2]
  · cases h

theorem waKey_of_waAddrOk {w : String} (h : waAddrOk w = true) : waKey w = some w := by
  unfold waAddrOk at h
  cases hdl : dropLit ("whatsapp:+").data w.data with
  | none =>
    rw [hdl] at h
    simp at h
  | some ds =>
    rw [hdl] at h
    simp only [decide_eq_true_eq] at h
    obtain ⟨h1, h2, -, -⟩ := h
    have hw : w.data = ("whatsapp:+").data ++ ds := dropLit_eq_some hdl
    have hdig : digitsL w.data = ds := by
      rw [hw]
      unfold digitsL
      rw [List.filter_append,
          show ("whatsapp:+").data.filter isDig = [] from by decide,
          List.filter_eq_self.mpr (fun a ha => List.all_eq_true.mp h2 a ha)]
      simp
    unfold waKey
    rw [hdig, if_neg h1, ← hw]

/-- C3 (corrected).  A notification that reaches the handler (secret and
allowlist pass, a WhatsApp recipient is derived) whose sender matches the
helpdesk's own domain and which carries a kayako Message-ID does have its
anchor (Message-ID, and the subject's case id when present) recorded in
the Thread Store — but the handler does not stop there: it still relays
the sanitized body to the chat transport. -/
theorem kayako_ack_amended
    (cfg : SgConfig) (req : SgRequest) (m0 : ThreadMap) (now : Nat) (w : String)
    (hsec : secretFails cfg req = false)
    (hallow : allowFails cfg (firstAddress req.sender) = false)
    (hto : toWhatsAppNumber req.recipient req.envelope = some w)
    (hkay : isKayakoSender (firstAddress req.sender) = true)
    (hmsg : ¬ (getHeaderVal req.rawHeaders ("Message-ID") = ""))
    (hmid : containsCI (getHeaderVal req.rawHeaders ("Message-ID")) ("@kayako.") = true)
    (hwf : waAddrOk cfg.waFrom = true)
    (hwt : waAddrOk w = true) :
    (∃ b mu, (sgInbound cfg req m0 now).outcome = SgOutcome.sent w b mu)
    ∧ (sgInbound cfg req m0 now).savedKayakoIds = true
    ∧ ∃ meta : ThreadMeta,
        mapGet (sgInbound cfg req m0 now).map w = some meta
        ∧ meta.kayakoMsgId = some (getHeaderVal req.rawHeaders ("Message-ID"))
        ∧ meta.updatedAt = some now
        ∧ (∀ cid, subjectCaseId req.subject = some cid → meta.caseId = some cid) := by
  have hmig1 : (migrateKeyIfNeeded m0 w).1 = some w :=
    migrate_fst (waKey_of_waAddrOk hwt)
  have hred : sgInbound cfg req m0 now
      = sgDeliver cfg req m0 now (firstAddress req.sender) w := by
    unfold sgInbound
    rw [hsec]
    simp only [Bool.false_eq_true, if_false]
    rw [hallow]
    simp only [Bool.false_eq_true, if_false]
    rw [hto]
  have hdel : sgDeliver cfg req m0 now (firstAddress req.sender) w
      = ⟨SgOutcome.sent w (sgBody req) (sgMedia req),
          mapSet (migrateKeyIfNeeded m0 w).2 w
            (capturedMeta (metaAfterMigration m0 w)
              (getHeaderVal req.rawHeaders ("Message-ID"))
              (subjectCaseId req.subject) now),
          true⟩ := by
    simp only [sgDeliver]
    rw [if_pos (show (isKayakoSender (firstAddress req.sender) = true)
          ∧ ¬ (getHeaderVal req.rawHeaders ("Message-ID") = "") from ⟨hkay, hmsg⟩),
        if_neg (not_not_intro hwf), if_neg (not_not_intro hwt), hmig1]
    rfl
  rw [hred, hdel]
  have hmeta := mapGet_mapSet_self (migrateKeyIfNeeded m0 w).2 w
    (capturedMeta (metaAfterMigration m0 w)
      (getHeaderVal req.rawHeaders ("Message-ID")) (subjectCaseId req.subject) now)
  refine ⟨⟨_, _, rfl⟩, rfl, _, hmeta, ?_, ?_, ?_⟩
  · unfold capturedMeta
    rw [if_pos hmid]
    cases subjectCaseId req.subject <;> rfl
  · unfold capturedMeta
    split <;> cases subjectCaseId req.subject <;> rfl
  · intro cid hc
    unfold capturedMeta
    rw [hc]

/-- Closed instance of C3's amended statement at the counterexample's
configuration and request. -/
theorem kayako_ack_amended_witness :
    (∃ b mu, (sgInbound cexSgConfig cexSgRequest [] 7).outcome
        = SgOutcome.sent ("whatsapp:+447911123456") b mu)
    ∧ (sgInbound cexSgConfig cexSgRequest [] 7).savedKayakoIds = true
    ∧ ∃ meta : ThreadMeta,
        mapGet (sgInbound cexSgConfig cexSgRequest [] 7).map ("whatsapp:+447911123456")
          = some meta
        ∧ meta.kayakoMsgId = some (getHeaderVal cexSgRequest.rawHeaders ("Message-ID"))
        ∧ meta.updatedAt = some 7
        ∧ (∀ cid, subjectCaseId cexSgRequest.subject = some cid →
            meta.caseId = some cid) :=
  kayako_ack_amended cexSgConfig cexSgRequest [] 7 ("whatsapp:+447911123456")
    (by decide) (by decide) (by decide) (by decide) (by decide) (by decide)
    (by decide) (by decide)

end WABridge
